import Mathlib

set_option autoImplicit false

namespace Keepmenu

/-!
Verification of keepmenu (`keepmenu.py`) against its natural-language
specification.  The Python functions relevant to the claims are shallowly
embedded as executable Lean definitions; strings are modelled as `List Char`.
-/

/-- The character `\x7b` (left curly brace), named to keep it out of string
literals. -/
def lbrace : Char := Char.ofNat 123

/-- The character `\x7d` (right curly brace). -/
def rbrace : Char := Char.ofNat 125

/-- The trigger characters scanned for by `tokenize_autotype`
(the Python loop `for char in "\x7b+^%~@"` combined with taking the minimal
`find` index is equivalent to the first position holding any of them). -/
def TRIGGER_CHARS : List Char := [lbrace, '+', '^', '%', '~', '@']

/-- The bare operator characters `+^%~@` of `tokenize_autotype`. -/
def OPERATOR_CHARS : List Char := ['+', '^', '%', '~', '@']

/-- Index of the first character satisfying `p`, `none` if there is none.
Models Python's minimal `str.find` index over a set of characters. -/
def firstIdx (p : Char → Bool) : List Char → Option Nat
  | [] => none
  | c :: r => if p c then some 0 else (firstIdx p r).map (· + 1)

/-- One token of the autotype tokenizer: the token text together with the
`if_special_char` flag yielded by the Python generator. -/
abbrev Token := List Char × Bool

/-- One iteration of the `tokenize_autotype` loop (`keepmenu.py` lines
465-497), with `recur` standing for the continuation of the loop on the
rest of the string; the driver `tokenizeLoop` below ties the knot with
explicit fuel (each iteration consumes at least one character, so
`length + 1` fuel always suffices).  The result is the list of yielded
tokens together with the error flag: `true` means `dmenu_err` was called
because no closing right brace was found (lines 487-490).

Faithful details: the prefix before the first trigger is yielded as a
non-special token; a bare operator is yielded alone as special; otherwise
the trigger is a left brace and `closing_idx` is the first right brace of
the *whole remaining string* (Python `autotype.find` searches from index 0);
the doubled form at `closing_idx == opening_idx + 1` followed by another
right brace yields the three-character literal-brace token; otherwise the
slice `autotype[opening_idx:closing_idx + 1]` is yielded (empty when
`closing_idx + 1 <= opening_idx`, exactly as in Python). -/
def tokenizeStep (recur : List Char → List Token × Bool) (r : List Char) :
    List Token × Bool :=
  match firstIdx (fun c => decide (c ∈ TRIGGER_CHARS)) r with
  | none => ([(r, false)], false)
  | some op =>
    let pre : List Token := if 0 < op then [(r.take op, false)] else []
    if r.getD op ' ' ∈ OPERATOR_CHARS then
      let rest := recur (r.drop (op + 1))
      (pre ++ ([r.getD op ' '], true) :: rest.1, rest.2)
    else
      match firstIdx (fun c => decide (c = rbrace)) r with
      | none => (pre, true)
      | some cl =>
        if cl = op + 1 ∧ cl + 1 < r.length ∧ r.getD (cl + 1) ' ' = rbrace then
          let rest := recur (r.drop (cl + 2))
          (pre ++ ([lbrace, rbrace, rbrace], true) :: rest.1, rest.2)
        else
          let rest := recur (r.drop (cl + 1))
          (pre ++ ((r.drop op).take (cl + 1 - op), true) :: rest.1, rest.2)

/-- The fuelled driver of the loop body above. -/
def tokenizeLoop : Nat → List Char → List Token × Bool
  | 0, _ => ([], false)
  | _, [] => ([], false)
  | fuel + 1, r => tokenizeStep (tokenizeLoop fuel) r

/-- `tokenize_autotype` (`keepmenu.py` lines 458-497): the full token list of
the generator, plus the tokenizing-error flag. -/
def tokenize_autotype (autotype : List Char) : List Token × Bool :=
  tokenizeLoop (autotype.length + 1) autotype

/-- Concatenation of the text of all tokens, in yield order. -/
def concatTokens (ts : List Token) : List Char := (ts.map Prod.fst).flatten

/-- `true` iff the string contains a left brace with no right brace anywhere
after it (the "unmatched left brace" condition of the specification). -/
def hasUnmatchedOpen : List Char → Bool
  | [] => false
  | c :: r => (c = lbrace && !(r.contains rbrace)) || hasUnmatchedOpen r

/-- The concrete input `a\x7db\x7bTAB\x7d` used to evaluate the tokenizer:
a literal containing a bare right brace, followed by a braced directive. -/
def exC1 : List Char := ['a', rbrace, 'b', lbrace, 'T', 'A', 'B', rbrace]

/-! ## Password generation (`gen_passwd`, `keepmenu.py` lines 98-119) -/

/-- A character-class selection, Python
`\x7bpreset_name: \x7bchar_set_name: string, ...\x7d, ...\x7d`: preset names
paired with their named character classes (class text as `List Char`).
Python iterates dicts in insertion order, modelled by list order. -/
abbrev CharSelection := List (String × List (String × List Char))

/-- `sets = set(j for i in chars.values() for j in i.values())`: the distinct
character-class strings of the selection (Python set = deduplication). -/
def char_sets (chars : CharSelection) : List (List Char) :=
  ((chars.map (fun p => p.2.map (fun c => c.2))).flatten).dedup

/-- `alphabet = "".join(set("".join(j for j in i.values()) for i in
chars.values()))`: deduplicated per-preset concatenations, joined. -/
def pw_alphabet (chars : CharSelection) : List Char :=
  ((chars.map (fun p => (p.2.map (fun c => c.2)).flatten)).dedup).flatten

/-- `gen_passwd(chars, length)`:  `pick` models `secrets.choice` (one random
member of a non-empty sequence) and `shuffle` models `random.shuffle` (a
random permutation); both are nondeterministic in Python and are passed as
parameters here.  Returns `none` for the Python `False` rejection. -/
def gen_passwd (pick : List Char → Char) (shuffle : List Char → List Char)
    (chars : CharSelection) (length : Nat) : Option (List Char) :=
  let sets := char_sets chars
  if length < sets.length ∨ chars = [] then none
  else
    let password := sets.map pick ++
      (List.range (length - sets.length)).map (fun _ => pick (pw_alphabet chars))
    some (shuffle password)

/-! ## Data model: entries, groups, the open database handle -/

/-- A database entry.  `group_path` is the path of the group holding the
entry; `autotype_sequence`/`autotype_enabled` are the nullable pykeepass
attributes (`none` models both an absent attribute and Python `None`). -/
structure Entry where
  title : String
  username : String
  password : String
  url : String
  notes : String
  group_path : String
  autotype_sequence : Option String
  autotype_enabled : Option Bool
deriving DecidableEq

/-- A database group: its name and its path in the group tree. -/
structure Group where
  name : String
  path : String
deriving DecidableEq

/-- The decrypted in-memory database handle (the PyKeePass object):
its entry list and group list. -/
structure KPO where
  entries : List Entry
  groups : List Group
deriving DecidableEq

/-- `entry.path` as produced by the pykeepass collaborator pinned by this
repository: `grouppath/title`, or just the title for a root entry. -/
def entry_path (e : Entry) : String :=
  if e.group_path = "" then e.title else e.group_path ++ "/" ++ e.title

/-! ## Autotype template selection (`type_entry`, `keepmenu.py` lines 521-545) -/

/-- The global default autotype sequence (`process_config`, line 140). -/
def SEQUENCE : String := "\x7bUSERNAME\x7d\x7bTAB\x7d\x7bPASSWORD\x7d\x7bENTER\x7d"

/-- `type_entry` up to its dispatch to a backend: `none` when autotype is
disabled for the entry (`autotype_enabled is False`, user notified, nothing
typed); otherwise the effective template string handed to
`tokenize_autotype`: the entry's own `autotype_sequence` when it is not
`None` and not the literal string `"None"`, else the global default. -/
def type_entry_template (SEQ : String) (e : Entry) : Option String :=
  if e.autotype_enabled = some false then none
  else some (match e.autotype_sequence with
    | none => SEQ
    | some s => if s = "None" then SEQ else s)

/-- The concrete entry used to refute C4 as stated: autotype enabled, with
an autotype-sequence override that is present but empty. -/
def exC4 : Entry :=
  { title := "t", username := "u", password := "p", url := "", notes := "",
    group_path := "g", autotype_sequence := some "", autotype_enabled := none }

/-! ## Hidden-group filtering (`DmenuRunner`, `keepmenu.py` lines 1479-1509) -/

/-- Python `s.rstrip(chars)`: remove the maximal trailing run of characters
that belong to `strip` (a character *set*, not a suffix). -/
def rstrip (s : List Char) (strip : List Char) : List Char :=
  (s.reverse.dropWhile (fun c => decide (c ∈ strip))).reverse

/-- Python `s.split(",")`: the comma-separated fields of a string, written
on the character list (`"".split(",")` is `[""]`, like in Python). -/
def split_commas : List Char → List (List Char)
  | [] => [[]]
  | c :: r =>
    if c = ',' then [] :: split_commas r
    else
      match split_commas r with
      | [] => [[c]]
      | h :: t => (c :: h) :: t

/-- `DmenuRunner.get_hidden_groups` (lines 1498-1509): the configured
`hide_groups` value (`none` when the option is absent), split on commas and
kept only when the name equals the name of some group of the open database. -/
def get_hidden_groups (hide_groups : Option String) (groups : List Group) :
    List String :=
  match hide_groups with
  | none => []
  | some hgs =>
    ((split_commas hgs.data).map (fun l => String.mk l)).filter
      (fun hg => (groups.map Group.name).contains hg)

/-- `DmenuRunner.is_hidden` (lines 1494-1496): `entry.path.rstrip(entry.title)`
compared by Python substring membership against every validated hidden name. -/
def is_hidden (hide : Option String) (groups : List Group) (e : Entry) : Bool :=
  (get_hidden_groups hide groups).any
    (fun g => decide (g.data <:+: rstrip (entry_path e).data e.title.data))

/-- The `enumerate`d and filtered entry list underlying
`DmenuRunner.get_entries_descriptions` (lines 1479-1486): index/entry pairs
kept when `include_hidden or not self.is_hidden(entry)`. -/
def visible_entries (kpo : KPO) (hide : Option String) (include_hidden : Bool) :
    List (Nat × Entry) :=
  kpo.entries.enum.filter
    (fun p => include_hidden || ! is_hidden hide kpo.groups p.2)

/-- `len(str(len(self.kpo.entries)))` (line 1480). -/
def idx_align (kpo : KPO) : Nat := (Nat.repr kpo.entries.length).length

/-- Python right-aligned format `f string idx padded to a given width. -/
def pad_left (w : Nat) (s : String) : String :=
  ⟨List.replicate (w - s.length) ' ' ++ s.data⟩

/-- `_entry_description` (lines 1284-1286). -/
def entry_description (idx align : Nat) (e : Entry) : String :=
  pad_left align (Nat.repr idx) ++ " - " ++ entry_path e ++ " - " ++
    e.username ++ " - " ++ e.url

/-- `DmenuRunner.get_entries_descriptions` (lines 1479-1486). -/
def get_entries_descriptions (kpo : KPO) (hide : Option String)
    (include_hidden : Bool) : List String :=
  (visible_entries kpo hide include_hidden).map
    (fun p => entry_description p.1 (idx_align kpo) p.2)

/-- The concrete entry used to refute C3 as stated: it lives in the hidden
group `ab` but its title contains a slash. -/
def eC3 : Entry :=
  { title := "b/", username := "u", password := "", url := "", notes := "",
    group_path := "ab", autotype_sequence := none, autotype_enabled := none }

/-- A database holding only `eC3` and the group `ab`. -/
def kpoC3 : KPO := KPO.mk [eC3] [Group.mk "ab" "ab"]

/-! ## Save/re-open discipline of the group-management flow
(`manage_groups`/`create_group`/... , `keepmenu.py` lines 932-1058, and
`DmenuRunner.manage_groups`, lines 1451-1457).  The interactive flow is
modelled as a trace of database-handle events; `dmenu_select` is modelled
by consuming the next string of a user-input script (an exhausted script
behaves like the user aborting with an empty selection). -/

/-- Events on the database handle: `save` (`kpo.save()`), `reopen`
(`self.kpo = get_entries(self.database)`), and a read of `kpo.groups`. -/
inductive DbEv
  | save
  | reopen
  | readGroups
deriving DecidableEq

/-- Consume the next scripted `dmenu_select` answer. -/
def menu_next : List String → String × List String
  | [] => ("", [])
  | s :: rest => (s, rest)

/-- Text before the first dash: Python `sel.split('-', 1)[0]`. -/
def split_dash1 : List Char → List Char
  | [] => []
  | c :: r => if c = '-' then [] else c :: split_dash1 r

/-- Python `int(text)` for a nonnegative decimal surrounded by spaces;
`none` models `ValueError`. -/
def parse_nat (l : List Char) : Option Nat :=
  let t := ((l.dropWhile (fun c => decide (c = ' '))).reverse.dropWhile
    (fun c => decide (c = ' '))).reverse
  if t = [] then none
  else if t.all (fun c => c.isDigit) then
    some (t.foldl (fun acc c => acc * 10 + (c.toNat - 48)) 0)
  else none

/-- `select_group` (lines 932-953): shows the numbered group list (a read of
`kpo.groups`) and resolves the selection's leading index.  A parse failure
is Python's `except (ValueError, TypeError)` returning `False`; an
out-of-range index (Python would raise `IndexError`) is also `none` here —
the concrete scripts evaluated below never take that path. -/
def select_group_m (kpo : KPO) (script : List String) :
    Option Group × List String × List DbEv :=
  let (sel, script') := menu_next script
  if sel = "" then (none, script', [DbEv.readGroups])
  else
    match parse_nat (split_dash1 sel.data) with
    | none => (none, script', [DbEv.readGroups])
    | some i => (kpo.groups[i]?, script', [DbEv.readGroups])

/-- The result of one group operation: Python returns `False`, `True` or a
Group object; `truthy` mirrors Python truthiness for `if group:`. -/
inductive GroupRes
  | rfalse
  | rtrue
  | rgroup (g : Group)
deriving DecidableEq

def GroupRes.truthy : GroupRes → Bool
  | GroupRes.rfalse => false
  | _ => true

/-- `create_group` (lines 988-1003): pick a parent, ask a name, add the
group to the in-memory handle, then `kpo.save()`. -/
def create_group_m (kpo : KPO) (script : List String) :
    GroupRes × KPO × List String × List DbEv :=
  let (pg, script1, tr1) := select_group_m kpo script
  match pg with
  | none => (GroupRes.rfalse, kpo, script1, tr1)
  | some parent =>
    let (name, script2) := menu_next script1
    if name = "" then (GroupRes.rfalse, kpo, script2, tr1)
    else
      let g := Group.mk name (parent.path ++ "/" ++ name)
      (GroupRes.rgroup g, KPO.mk kpo.entries (kpo.groups ++ [g]), script2,
        tr1 ++ [DbEv.save])

/-- `delete_group` (lines 1006-1022): pick a group, two-choice confirm
(anything but the confirm line cancels, returning `True`), delete and
`kpo.save()`. -/
def delete_group_m (kpo : KPO) (script : List String) :
    GroupRes × KPO × List String × List DbEv :=
  let (g0, script1, tr1) := select_group_m kpo script
  match g0 with
  | none => (GroupRes.rfalse, kpo, script1, tr1)
  | some g =>
    let (confirm, script2) := menu_next script1
    if confirm ≠ "Yes - confirm delete" then (GroupRes.rtrue, kpo, script2, tr1)
    else
      (GroupRes.rgroup g, KPO.mk kpo.entries (kpo.groups.erase g), script2,
        tr1 ++ [DbEv.save])

/-- `move_group` (lines 1025-1040): pick a group and a destination, move it
(its path becomes `destination/name`), `kpo.save()`. -/
def move_group_m (kpo : KPO) (script : List String) :
    GroupRes × KPO × List String × List DbEv :=
  let (g0, script1, tr1) := select_group_m kpo script
  match g0 with
  | none => (GroupRes.rfalse, kpo, script1, tr1)
  | some g =>
    let (d0, script2, tr2) := select_group_m kpo script1
    match d0 with
    | none => (GroupRes.rfalse, kpo, script2, tr1 ++ tr2)
    | some dest =>
      let g' := Group.mk g.name (dest.path ++ "/" ++ g.name)
      (GroupRes.rgroup g',
        KPO.mk kpo.entries (kpo.groups.map (fun h => if h = g then g' else h)),
        script2, tr1 ++ tr2 ++ [DbEv.save])

/-- `rename_group` (lines 1043-1058): pick a group, ask the new name,
rename, `kpo.save()`. -/
def rename_group_m (kpo : KPO) (script : List String) :
    GroupRes × KPO × List String × List DbEv :=
  let (g0, script1, tr1) := select_group_m kpo script
  match g0 with
  | none => (GroupRes.rfalse, kpo, script1, tr1)
  | some g =>
    let (name, script2) := menu_next script1
    if name = "" then (GroupRes.rfalse, kpo, script2, tr1)
    else
      let g' := Group.mk name g.path
      (GroupRes.rgroup g',
        KPO.mk kpo.entries (kpo.groups.map (fun h => if h = g then g' else h)),
        script2, tr1 ++ [DbEv.save])

/-- The `manage_groups` menu loop (lines 956-985): each iteration builds
its menu from `kpo.groups` (a read) before showing it, dispatches to the
chosen operation on the *same in-memory handle*, and keeps the last
operation's result; an empty or unknown selection exits. -/
def manage_groups_go : Nat → KPO → List String → GroupRes →
    GroupRes × KPO × List DbEv
  | 0, kpo, _, g => (g, kpo, [])
  | fuel + 1, kpo, script, g =>
    let (sel, script1) := menu_next script
    if sel = "" then (g, kpo, [DbEv.readGroups])
    else if sel = "Create" then
      let (res, kpo1, script2, tr) := create_group_m kpo script1
      let (gout, kpo2, tr') := manage_groups_go fuel kpo1 script2 res
      (gout, kpo2, DbEv.readGroups :: (tr ++ tr'))
    else if sel = "Move" then
      let (res, kpo1, script2, tr) := move_group_m kpo script1
      let (gout, kpo2, tr') := manage_groups_go fuel kpo1 script2 res
      (gout, kpo2, DbEv.readGroups :: (tr ++ tr'))
    else if sel = "Rename" then
      let (res, kpo1, script2, tr) := rename_group_m kpo script1
      let (gout, kpo2, tr') := manage_groups_go fuel kpo1 script2 res
      (gout, kpo2, DbEv.readGroups :: (tr ++ tr'))
    else if sel = "Delete" then
      let (res, kpo1, script2, tr) := delete_group_m kpo script1
      let (gout, kpo2, tr') := manage_groups_go fuel kpo1 script2 res
      (gout, kpo2, DbEv.readGroups :: (tr ++ tr'))
    else (g, kpo, [DbEv.readGroups])

/-- `manage_groups` run with always-sufficient fuel (every iteration
consumes at least one scripted answer). -/
def manage_groups_m (kpo : KPO) (script : List String) :
    GroupRes × KPO × List DbEv :=
  manage_groups_go (script.length + 1) kpo script GroupRes.rfalse

/-- `DmenuRunner.manage_groups` (lines 1451-1457): run the sub-loop, then —
only when its result is truthy — `self.kpo.save()` followed by the full
re-open `self.kpo = get_entries(self.database)`. -/
def dmenu_runner_manage_groups (kpo : KPO) (script : List String) :
    KPO × List DbEv :=
  let (g, kpo1, tr) := manage_groups_m kpo script
  if g.truthy then (kpo1, tr ++ [DbEv.save, DbEv.reopen]) else (kpo1, tr)

/-- After a `save`, no read may occur before a `reopen`. -/
def no_read_until_reopen : List DbEv → Bool
  | [] => true
  | DbEv.reopen :: _ => true
  | DbEv.readGroups :: _ => false
  | DbEv.save :: rest => no_read_until_reopen rest

/-- The save-then-reopen invariant of the claim, as a trace predicate:
every `save` is followed by a `reopen` before any further read. -/
def reopened_before_read : List DbEv → Bool
  | [] => true
  | DbEv.save :: rest => no_read_until_reopen rest && reopened_before_read rest
  | _ :: rest => reopened_before_read rest

/-- The failing user-input script: create a group under the existing group
`ab`, then leave the menu. -/
def scriptC7 : List String := ["Create", "0 - ab", "newgrp"]

/-! ## Lemmas and claim theorems -/

/-- C1: Tokenizer round-trip.  REFUTED ON THE CODE: the input
`a\x7db\x7bTAB\x7d` contains no unmatched left brace and tokenization
signals no error, yet the concatenation of the yielded tokens is
`a\x7dbb\x7bTAB\x7d`, not the original string: because `closing_idx` is
computed with `find` from the start of the remaining string, the bare right
brace of the already-yielded literal prefix is taken as the closing brace,
an empty special token is yielded, and the text `b` is yielded twice. -/
theorem C1_roundtrip_fails :
    hasUnmatchedOpen exC1 = false ∧
    (tokenize_autotype exC1).2 = false ∧
    (tokenize_autotype exC1).1 =
      [(['a', rbrace, 'b'], false), ([], true), (['b'], false),
       ([lbrace, 'T', 'A', 'B', rbrace], true)] ∧
    concatTokens (tokenize_autotype exC1).1 ≠ exC1 := by
  decide

/-- C2: Password generation.  For a non-empty selection whose distinct
character classes number `k = (char_sets chars).length`, with every class
non-empty: when `k ≤ L` the generated password has length exactly `L` and
contains at least one character of every requested class; when `k > L`
generation is rejected (`False`).  `pick` may return any member of its
non-empty argument and `shuffle` any permutation. -/
theorem C2_gen_passwd (pick : List Char → Char) (shuffle : List Char → List Char)
    (chars : CharSelection) (L : Nat)
    (hpick : ∀ l, l ≠ [] → pick l ∈ l)
    (hshuf : ∀ l, List.Perm (shuffle l) l)
    (hch : chars ≠ [])
    (hcls : ∀ p ∈ chars, ∀ c ∈ p.2, c.2 ≠ []) :
    ((char_sets chars).length ≤ L →
      ∃ pw, gen_passwd pick shuffle chars L = some pw ∧
        pw.length = L ∧
        ∀ p ∈ chars, ∀ c ∈ p.2, ∃ ch, ch ∈ c.2 ∧ ch ∈ pw) ∧
    (L < (char_sets chars).length → gen_passwd pick shuffle chars L = none) := by
  constructor
  · intro hkL
    have hguard : ¬ (L < (char_sets chars).length ∨ chars = []) := by
      rintro (h | h)
      · exact absurd hkL (Nat.not_le_of_lt h)
      · exact hch h
    refine ⟨shuffle ((char_sets chars).map pick ++
      (List.range (L - (char_sets chars).length)).map
        (fun _ => pick (pw_alphabet chars))), ?_, ?_, ?_⟩
    · unfold gen_passwd
      rw [if_neg hguard]
    · rw [(hshuf _).length_eq]
      simp [Nat.add_sub_cancel' hkL]
    · intro p hp c hc
      refine ⟨pick c.2, hpick c.2 (hcls p hp c hc), ?_⟩
      rw [(hshuf _).mem_iff]
      apply List.mem_append_left
      apply List.mem_map_of_mem
      unfold char_sets
      rw [List.mem_dedup]
      apply List.mem_flatten.mpr
      exact ⟨p.2.map (fun c => c.2), List.mem_map_of_mem _ hp,
        List.mem_map_of_mem _ hc⟩
  · intro hLk
    unfold gen_passwd
    rw [if_pos (Or.inl hLk)]

/-- C2 witness: a concrete run with a two-class selection and length 3,
instantiating `pick` with the head of the list and `shuffle` with the
identity permutation. -/
theorem C2_gen_passwd_witness :
    ∃ pw, gen_passwd (fun l => l.headD 'x')
        (fun l => l) [("Letters", [("upper", ['A', 'B']), ("lower", ['a', 'b'])])] 3 =
        some pw ∧
      pw.length = 3 ∧
      ∀ p ∈ [("Letters", [("upper", ['A', 'B']), ("lower", ['a', 'b'])])],
        ∀ c ∈ p.2, ∃ ch, ch ∈ c.2 ∧ ch ∈ pw := by
  refine (C2_gen_passwd (fun l => l.headD 'x') (fun l => l) _ 3 ?_ ?_ ?_ ?_).1 ?_
  · intro l hl
    cases l with
    | nil => exact absurd rfl hl
    | cons a t => simp [List.headD]
  · intro l
    exact List.Perm.refl l
  · decide
  · decide
  · decide

/-- C4 counterexample: the claim says an entry whose override is present but
*empty* falls back to the global default.  The code only falls back for a
missing/`None`/`"None"` override: for the entry with override `""` the
effective template is `""` (so nothing is typed), not the global default. -/
theorem C4_counterexample :
    exC4.autotype_enabled ≠ some false ∧
    exC4.autotype_sequence = some "" ∧
    type_entry_template SEQUENCE exC4 = some "" ∧
    type_entry_template SEQUENCE exC4 ≠ some SEQUENCE := by
  refine ⟨by decide, rfl, rfl, ?_⟩
  intro h
  exact absurd (Option.some.inj h) (by decide)

/-- C4 (amended): for an entry with autotype not disabled, the effective
template is the entry's own override exactly when the override is present
and is neither Python `None` nor the literal string `"None"`; otherwise
(absent, `None`, or `"None"`) the global default is used.  An empty
override is used as the template. -/
theorem C4_template_selection (SEQ : String) (e : Entry)
    (hen : e.autotype_enabled ≠ some false) :
    (∀ s, e.autotype_sequence = some s → s ≠ "None" →
      type_entry_template SEQ e = some s) ∧
    ((e.autotype_sequence = none ∨ e.autotype_sequence = some "None") →
      type_entry_template SEQ e = some SEQ) := by
  unfold type_entry_template
  rw [if_neg hen]
  constructor
  · intro s hs hne
    rw [hs]
    simp [hne]
  · rintro (h | h) <;> simp [h]

/-- C4 witness: a concrete non-`"None"` override is used verbatim, and a
`"None"` override falls back to the global default. -/
theorem C4_template_selection_witness :
    type_entry_template SEQUENCE
        { exC4 with autotype_sequence := some "\x7bTAB\x7d" } = some "\x7bTAB\x7d" ∧
    type_entry_template SEQUENCE
        { exC4 with autotype_sequence := some "None" } = some SEQUENCE := by
  constructor
  · exact (C4_template_selection SEQUENCE
      { exC4 with autotype_sequence := some "\x7bTAB\x7d" } (by decide)).1
      _ rfl (by decide)
  · exact (C4_template_selection SEQUENCE
      { exC4 with autotype_sequence := some "None" } (by decide)).2 (Or.inr rfl)

/-- C10: hidden-group name validation: every name used for hiding equals the
name of some group of the open database; a configured name matching no
group's name is discarded and can hide no entry (an entry is hidden only via
the name of an existing group). -/
theorem C10_hidden_group_validation (hide : Option String) (kpo : KPO) :
    (∀ hg ∈ get_hidden_groups hide kpo.groups, hg ∈ kpo.groups.map Group.name) ∧
    (∀ n, n ∉ kpo.groups.map Group.name → n ∉ get_hidden_groups hide kpo.groups) ∧
    (∀ e : Entry, is_hidden hide kpo.groups e = true →
      ∃ hg, hg ∈ kpo.groups.map Group.name ∧
        hg.data <:+: rstrip (entry_path e).data e.title.data) := by
  have hmem : ∀ hg ∈ get_hidden_groups hide kpo.groups,
      hg ∈ kpo.groups.map Group.name := by
    intro hg h
    cases hide with
    | none => simp [get_hidden_groups] at h
    | some hgs =>
      rw [get_hidden_groups, List.mem_filter] at h
      exact List.mem_of_elem_eq_true h.2
  refine ⟨hmem, fun n hn hmem2 => hn (hmem n hmem2), ?_⟩
  intro e he
  rw [is_hidden, List.any_eq_true] at he
  obtain ⟨hg, hhg, hpred⟩ := he
  exact ⟨hg, hmem hg hhg, of_decide_eq_true hpred⟩

/-- C10 witness: with groups named `social` only, the configured list
`social,oci` validates to `social` alone, so `oci` hides nothing. -/
theorem C10_hidden_group_validation_witness :
    "oci" ∉ get_hidden_groups (some "social,oci")
      (KPO.mk [] [Group.mk "social" "social"]).groups := by
  refine (C10_hidden_group_validation (some "social,oci")
    (KPO.mk [] [Group.mk "social" "social"])).2.1 "oci" ?_
  decide

/-- C3 counterexample: the hidden name `ab` is configured and validated, and
the entry's group path `ab` contains it, yet the entry appears in the entry
list produced with `include_hidden = False`: `is_hidden` computes the group
part of the path with `rstrip(entry.title)`, which strips by *character set*,
so for the title `b/` it eats through the path separator of `ab/b/` and
leaves `a`, in which `ab` is no longer found. -/
theorem C3_counterexample :
    "ab" ∈ get_hidden_groups (some "ab") kpoC3.groups ∧
    ("ab".data <:+: eC3.group_path.data) ∧
    rstrip (entry_path eC3).data eC3.title.data = ['a'] ∧
    is_hidden (some "ab") kpoC3.groups eC3 = false ∧
    (0, eC3) ∈ visible_entries kpoC3 (some "ab") false := by
  decide

/-- C3 (amended): hidden-group filtering holds for every entry whose group
path contains a validated hidden name, *provided the entry's title contains
no slash* (otherwise `rstrip` can strip past the path separator, see the
counterexample): the entry appears in no position of the entry list built
with `include_hidden = False`, and appears, at its own index, in the list
built with `include_hidden = True`. -/
theorem C3_hidden_filtering (kpo : KPO) (hide : Option String) (e : Entry)
    (i : Nat) (n : String)
    (hi : kpo.entries[i]? = some e)
    (hn : n ∈ get_hidden_groups hide kpo.groups)
    (hsub : n.data <:+: e.group_path.data)
    (ht : '/' ∉ e.title.data) :
    (∀ p ∈ visible_entries kpo hide false, p.2 ≠ e) ∧
    (i, e) ∈ visible_entries kpo hide true := by
  have hhid : is_hidden hide kpo.groups e = true := by
    rw [is_hidden, List.any_eq_true]
    refine ⟨n, hn, decide_eq_true ?_⟩
    by_cases hgp : e.group_path = ""
    · have hnil : n.data = [] := by
        rw [hgp] at hsub
        obtain ⟨s, t, hst⟩ := hsub
        have h1 := (List.append_eq_nil.mp hst).1
        exact (List.append_eq_nil.mp h1).2
      have hstrip :
          rstrip (entry_path e).data e.title.data = [] := by
        rw [entry_path, if_pos hgp, rstrip]
        rw [List.dropWhile_eq_nil_iff.mpr]
        · rfl
        · intro x hx
          exact decide_eq_true (List.mem_reverse.mp hx)
      rw [hstrip, hnil]
    · have hdata : (entry_path e).data =
          e.group_path.data ++ '/' :: e.title.data := by
        rw [entry_path, if_neg hgp]
        simp [String.data_append]
      have hstrip : rstrip (entry_path e).data e.title.data =
          e.group_path.data ++ ['/'] := by
        rw [rstrip, hdata]
        rw [List.reverse_append, List.reverse_cons, List.append_assoc]
        rw [List.dropWhile_append]
        have h1 : e.title.data.reverse.dropWhile
            (fun c => decide (c ∈ e.title.data)) = [] := by
          rw [List.dropWhile_eq_nil_iff]
          intro x hx
          exact decide_eq_true (List.mem_reverse.mp hx)
        rw [h1]
        simp only [List.isEmpty_nil, if_true]
        rw [List.singleton_append, List.dropWhile_cons]
        have h2 : decide ('/' ∈ e.title.data) = false := decide_eq_false ht
        rw [h2]
        simp
      rw [hstrip]
      obtain ⟨s, t, hst⟩ := hsub
      exact ⟨s, t ++ ['/'], by rw [← List.append_assoc, hst]⟩
  constructor
  · intro p hp hpe
    rw [visible_entries, List.mem_filter] at hp
    have hfilt := hp.2
    rw [hpe, hhid] at hfilt
    simp at hfilt
  · rw [visible_entries]
    apply List.mem_filter.mpr
    exact ⟨List.mk_mem_enum_iff_getElem?.mpr hi, by simp⟩

/-- C3 witness: a concrete database where the single entry (slash-free
title) of the hidden group `ab` is filtered from the default list and kept
in the `include_hidden` list. -/
theorem C3_hidden_filtering_witness :
    (0, Entry.mk "t" "u" "" "" "" "ab" none none) ∉
      visible_entries (KPO.mk [Entry.mk "t" "u" "" "" "" "ab" none none]
        [Group.mk "ab" "ab"]) (some "ab") false ∧
    (0, Entry.mk "t" "u" "" "" "" "ab" none none) ∈
      visible_entries (KPO.mk [Entry.mk "t" "u" "" "" "" "ab" none none]
        [Group.mk "ab" "ab"]) (some "ab") true := by
  have h := C3_hidden_filtering
    (KPO.mk [Entry.mk "t" "u" "" "" "" "ab" none none] [Group.mk "ab" "ab"])
    (some "ab") (Entry.mk "t" "u" "" "" "" "ab" none none) 0 "ab"
    rfl (by decide) (by decide) (by decide)
  exact ⟨fun hmem => h.1 _ hmem rfl, h.2⟩

/-! ## Tokenizer lemmas -/

theorem firstIdx_none_spec {p : Char → Bool} {l : List Char}
    (h : firstIdx p l = none) : ∀ c ∈ l, p c = false := by
  induction l with
  | nil => intro c hc; cases hc
  | cons a r ih =>
    rw [firstIdx] at h
    by_cases hp : p a
    · rw [if_pos hp] at h
      cases h
    · rw [if_neg hp] at h
      intro c hc
      rcases List.mem_cons.mp hc with hca | hcr
      · rw [hca]
        exact Bool.eq_false_iff.mpr hp
      · exact ih (Option.map_eq_none'.mp h) c hcr

theorem firstIdx_some_spec {p : Char → Bool} {l : List Char} {i : Nat}
    (h : firstIdx p l = some i) :
    ∃ c, l[i]? = some c ∧ p c = true ∧
      ∀ j d, j < i → l[j]? = some d → p d = false := by
  induction l generalizing i with
  | nil => cases h
  | cons a r ih =>
    rw [firstIdx] at h
    by_cases hp : p a
    · rw [if_pos hp] at h
      cases h
      exact ⟨a, by simp, hp, fun j d hj => absurd hj (Nat.not_lt_zero j)⟩
    · rw [if_neg hp] at h
      obtain ⟨i', hi', rfl⟩ := Option.map_eq_some'.mp h
      obtain ⟨c, hc, hpc, hmin⟩ := ih hi'
      refine ⟨c, by simpa using hc, hpc, ?_⟩
      intro j d hj hd
      cases j with
      | zero =>
        rw [List.getElem?_cons_zero] at hd
        cases hd
        exact Bool.eq_false_iff.mpr hp
      | succ j' =>
        rw [List.getElem?_cons_succ] at hd
        exact hmin j' d (Nat.lt_of_succ_lt_succ hj) hd

theorem firstIdx_eq_none_of {p : Char → Bool} {l : List Char}
    (h : ∀ c ∈ l, p c = false) : firstIdx p l = none := by
  induction l with
  | nil => rfl
  | cons a r ih =>
    rw [firstIdx, if_neg]
    · rw [ih fun c hc => h c (List.mem_cons_of_mem a hc)]
      rfl
    · exact Bool.eq_false_iff.mp (h a (List.mem_cons_self a r))

theorem firstIdx_append_cons {p : Char → Bool} {u : List Char} {c : Char}
    (v : List Char) (hu : ∀ x ∈ u, p x = false) (hc : p c = true) :
    firstIdx p (u ++ c :: v) = some u.length := by
  induction u with
  | nil =>
    rw [List.nil_append, firstIdx, if_pos hc]
    rfl
  | cons a t ih =>
    rw [List.cons_append, firstIdx,
      if_neg (Bool.eq_false_iff.mp (hu a (List.mem_cons_self a t)))]
    rw [ih fun x hx => hu x (List.mem_cons_of_mem a hx)]
    rfl

theorem getElem?_append_mid (u v : List Char) (c : Char) :
    (u ++ c :: v)[u.length]? = some c := by
  rw [List.getElem?_append_right (Nat.le_refl u.length)]
  simp

theorem getElem?_eq_some_getD {l : List Char} {n : Nat} (d : Char)
    (h : n < l.length) : l[n]? = some (l.getD n d) := by
  simp [List.getD_eq_getElem?_getD, List.getElem?_eq_getElem h]

theorem rbrace_pos_lt {u v r : List Char} (hr : r = u ++ lbrace :: v)
    (hv : rbrace ∉ v) {j : Nat} (hj : r[j]? = some rbrace) : j < u.length := by
  rcases Nat.lt_trichotomy j u.length with h | h | h
  · exact h
  · subst h
    rw [hr, getElem?_append_mid] at hj
    cases hj
  · rw [hr, List.getElem?_append_right (Nat.le_of_lt h)] at hj
    rw [(Nat.succ_pred_eq_of_pos (Nat.sub_pos_of_lt h)).symm,
      List.getElem?_cons_succ] at hj
    exact absurd (List.getElem?_mem hj) hv

theorem tokenizeLoop_succ (fuel : Nat) (r : List Char) (hr : r ≠ []) :
    tokenizeLoop (fuel + 1) r = tokenizeStep (tokenizeLoop fuel) r := by
  cases r with
  | nil => exact absurd rfl hr
  | cons a t => rfl

theorem hasUnmatchedOpen_iff {l : List Char} :
    hasUnmatchedOpen l = true ↔ ∃ u v, l = u ++ lbrace :: v ∧ rbrace ∉ v := by
  induction l with
  | nil =>
    simp only [hasUnmatchedOpen]
    constructor
    · intro h; cases h
    · rintro ⟨u, v, h, -⟩
      exact absurd h.symm (List.append_ne_nil_of_right_ne_nil u (List.cons_ne_nil _ _))
  | cons a r ih =>
    rw [hasUnmatchedOpen, Bool.or_eq_true, Bool.and_eq_true, ih]
    constructor
    · rintro (⟨ha, hb⟩ | ⟨u, v, hr, hv⟩)
      · refine ⟨[], r, ?_, ?_⟩
        · rw [List.nil_append, of_decide_eq_true ha]
        · rw [Bool.not_eq_true'] at hb
          simpa using hb
      · exact ⟨a :: u, v, by rw [hr, List.cons_append], hv⟩
    · rintro ⟨u, v, hr, hv⟩
      cases u with
      | nil =>
        rw [List.nil_append] at hr
        cases hr
        refine Or.inl ⟨by simp, ?_⟩
        rw [Bool.not_eq_true']
        simpa using hv
      | cons b u' =>
        rw [List.cons_append] at hr
        cases hr
        exact Or.inr ⟨u', v, rfl, hv⟩

theorem tokenizeLoop_err : ∀ (fuel : Nat) (u v r : List Char),
    r.length < fuel → r = u ++ lbrace :: v → rbrace ∉ v →
    (tokenizeLoop fuel r).2 = true := by
  intro fuel
  induction fuel with
  | zero => intro u v r h; exact absurd h (Nat.not_lt_zero _)
  | succ fuel ih =>
    intro u v r hlen hr hv
    have hrne : r ≠ [] := by
      rw [hr]
      exact List.append_ne_nil_of_right_ne_nil u (List.cons_ne_nil _ _)
    have hrpos : 0 < r.length := List.length_pos.mpr hrne
    have hlen' : r.length ≤ fuel := Nat.lt_succ_iff.mp hlen
    have hdrop : ∀ k, 0 < k → (r.drop k).length < fuel := by
      intro k hk
      rw [List.length_drop]
      exact Nat.lt_of_lt_of_le (Nat.sub_lt hrpos hk) hlen'
    have hlb : r[u.length]? = some lbrace := by
      rw [hr]; exact getElem?_append_mid u v lbrace
    rw [tokenizeLoop_succ fuel r hrne]
    rw [tokenizeStep]
    cases hfi : firstIdx (fun c => decide (c ∈ TRIGGER_CHARS)) r with
    | none =>
      have := firstIdx_none_spec hfi lbrace (List.getElem?_mem hlb)
      rw [decide_eq_false_iff_not] at this
      exact absurd (by decide : lbrace ∈ TRIGGER_CHARS) this
    | some op =>
      obtain ⟨copc, hcop, hpc, hmin⟩ := firstIdx_some_spec hfi
      have hople : op ≤ u.length := by
        by_contra hgt
        push_neg at hgt
        have := hmin u.length lbrace hgt hlb
        rw [decide_eq_false_iff_not] at this
        exact absurd (by decide : lbrace ∈ TRIGGER_CHARS) this
      have hgetd : r.getD op ' ' = copc := by
        rw [List.getD_eq_getElem?_getD, hcop]
        rfl
      by_cases hopc : r.getD op ' ' ∈ OPERATOR_CHARS
      · -- operator branch: the offending brace is untouched, recurse
        have hopne : op ≠ u.length := by
          intro heq
          rw [heq] at hcop
          rw [hcop] at hlb
          cases hlb
          rw [hgetd] at hopc
          rw [heq] at hgetd
          exact absurd hopc (by decide)
        have hoplt : op + 1 ≤ u.length :=
          Nat.succ_le_of_lt (Nat.lt_of_le_of_ne hople hopne)
        simp only [eq_true hopc, if_true]
        apply ih (u.drop (op + 1)) v
        · exact hdrop (op + 1) (Nat.succ_pos op)
        · rw [hr, List.drop_append_of_le_length hoplt]
        · exact hv
      · simp only [eq_false hopc, if_false]
        cases hfc : firstIdx (fun c => decide (c = rbrace)) r with
        | none => simp
        | some cl =>
          obtain ⟨cc, hccget, hccp, -⟩ := firstIdx_some_spec hfc
          rw [decide_eq_true_eq] at hccp
          rw [hccp] at hccget
          have hcllt : cl < u.length := rbrace_pos_lt hr hv hccget
          by_cases hbr : cl = op + 1 ∧ cl + 1 < r.length ∧ r.getD (cl + 1) ' ' = rbrace
          · have hcl1 : r[cl + 1]? = some rbrace := by
              rw [getElem?_eq_some_getD ' ' hbr.2.1, hbr.2.2]
            have hcl1lt : cl + 1 < u.length := rbrace_pos_lt hr hv hcl1
            simp only [eq_true hbr, if_true]
            apply ih (u.drop (cl + 2)) v
            · exact hdrop (cl + 2) (Nat.succ_pos _)
            · rw [hr, List.drop_append_of_le_length (Nat.succ_le_of_lt hcl1lt)]
            · exact hv
          · simp only [eq_false hbr, if_false]
            apply ih (u.drop (cl + 1)) v
            · exact hdrop (cl + 1) (Nat.succ_pos _)
            · rw [hr, List.drop_append_of_le_length (Nat.succ_le_of_lt hcllt)]
            · exact hv

theorem tokenizeStep_none {recur : List Char → List Token × Bool} {r : List Char}
    (hfi : firstIdx (fun c => decide (c ∈ TRIGGER_CHARS)) r = none) :
    tokenizeStep recur r = ([(r, false)], false) := by
  rw [tokenizeStep, hfi]

theorem tokenizeStep_op {recur : List Char → List Token × Bool} {r : List Char}
    {op : Nat} (hfi : firstIdx (fun c => decide (c ∈ TRIGGER_CHARS)) r = some op)
    (hop : r.getD op ' ' ∈ OPERATOR_CHARS) :
    tokenizeStep recur r =
      ((if 0 < op then [(r.take op, false)] else []) ++
        ([r.getD op ' '], true) :: (recur (r.drop (op + 1))).1,
       (recur (r.drop (op + 1))).2) := by
  rw [tokenizeStep, hfi]
  simp only [eq_true hop, if_true]

theorem tokenizeStep_err {recur : List Char → List Token × Bool} {r : List Char}
    {op : Nat} (hfi : firstIdx (fun c => decide (c ∈ TRIGGER_CHARS)) r = some op)
    (hop : r.getD op ' ' ∉ OPERATOR_CHARS)
    (hfc : firstIdx (fun c => decide (c = rbrace)) r = none) :
    tokenizeStep recur r =
      (if 0 < op then [(r.take op, false)] else [], true) := by
  rw [tokenizeStep, hfi]
  simp only [eq_false hop, if_false, hfc]

theorem tokenizeStep_dbl {recur : List Char → List Token × Bool} {r : List Char}
    {op cl : Nat} (hfi : firstIdx (fun c => decide (c ∈ TRIGGER_CHARS)) r = some op)
    (hop : r.getD op ' ' ∉ OPERATOR_CHARS)
    (hfc : firstIdx (fun c => decide (c = rbrace)) r = some cl)
    (hbr : cl = op + 1 ∧ cl + 1 < r.length ∧ r.getD (cl + 1) ' ' = rbrace) :
    tokenizeStep recur r =
      ((if 0 < op then [(r.take op, false)] else []) ++
        ([lbrace, rbrace, rbrace], true) :: (recur (r.drop (cl + 2))).1,
       (recur (r.drop (cl + 2))).2) := by
  rw [tokenizeStep, hfi]
  simp only [eq_false hop, if_false, hfc, eq_true hbr, if_true]

theorem tokenizeStep_slice {recur : List Char → List Token × Bool} {r : List Char}
    {op cl : Nat} (hfi : firstIdx (fun c => decide (c ∈ TRIGGER_CHARS)) r = some op)
    (hop : r.getD op ' ' ∉ OPERATOR_CHARS)
    (hfc : firstIdx (fun c => decide (c = rbrace)) r = some cl)
    (hbr : ¬ (cl = op + 1 ∧ cl + 1 < r.length ∧ r.getD (cl + 1) ' ' = rbrace)) :
    tokenizeStep recur r =
      ((if 0 < op then [(r.take op, false)] else []) ++
        ((r.drop op).take (cl + 1 - op), true) :: (recur (r.drop (cl + 1))).1,
       (recur (r.drop (cl + 1))).2) := by
  rw [tokenizeStep, hfi]
  simp only [eq_false hop, if_false, hfc, eq_false hbr]

theorem tokenize_unmatched_clean (u v : List Char)
    (hnr : rbrace ∉ u ++ lbrace :: v) (hu : ∀ c ∈ u, c ∉ TRIGGER_CHARS) :
    tokenize_autotype (u ++ lbrace :: v) =
      (if u = [] then [] else [(u, false)], true) := by
  have hne : u ++ lbrace :: v ≠ [] :=
    List.append_ne_nil_of_right_ne_nil u (List.cons_ne_nil _ _)
  have hfi : firstIdx (fun c => decide (c ∈ TRIGGER_CHARS)) (u ++ lbrace :: v) =
      some u.length :=
    firstIdx_append_cons v (fun x hx => decide_eq_false (hu x hx)) (by decide)
  have hgd : (u ++ lbrace :: v).getD u.length ' ' = lbrace := by
    rw [List.getD_eq_getElem?_getD, getElem?_append_mid]
    rfl
  have hnotop : (u ++ lbrace :: v).getD u.length ' ' ∉ OPERATOR_CHARS := by
    rw [hgd]
    decide
  have hfc : firstIdx (fun c => decide (c = rbrace)) (u ++ lbrace :: v) = none :=
    firstIdx_eq_none_of (fun c hc => decide_eq_false (fun hcr => hnr (hcr ▸ hc)))
  rw [tokenize_autotype, tokenizeLoop_succ _ _ hne, tokenizeStep_err hfi hnotop hfc]
  cases u with
  | nil => simp
  | cons a t => simp [List.take_left]

/-- C6: unmatched-brace error handling.  For every input containing a left
brace with no right brace after it, tokenization signals the user-visible
error (`dmenu_err`, the `true` flag) — the embedding returns the tokens
yielded before the error point and nothing for the rest, with no exception.
In the clean case where the offending left brace is the first trigger and no
right brace occurs at all, the emitted tokens are exactly the literal prefix
before the brace (nothing when that prefix is empty): the whole remainder is
dropped. -/
theorem C6_unmatched_brace_error (s : List Char) :
    (hasUnmatchedOpen s = true → (tokenize_autotype s).2 = true) ∧
    (∀ u v, s = u ++ lbrace :: v → rbrace ∉ s → (∀ c ∈ u, c ∉ TRIGGER_CHARS) →
      tokenize_autotype s = (if u = [] then [] else [(u, false)], true)) := by
  constructor
  · intro h
    obtain ⟨u, v, rfl, hv⟩ := hasUnmatchedOpen_iff.mp h
    exact tokenizeLoop_err _ u v _ (Nat.lt_succ_self _) rfl hv
  · rintro u v rfl hnr hu
    exact tokenize_unmatched_clean u v hnr hu

/-- C6 witness: `\x7bTAB` yields no token and the error flag; `x\x7bT` yields
exactly the literal `x` and the error flag, dropping `\x7bT`. -/
theorem C6_unmatched_brace_error_witness :
    (tokenize_autotype [lbrace, 'T', 'A', 'B']).2 = true ∧
    tokenize_autotype ['x', lbrace, 'T'] = ([(['x'], false)], true) := by
  constructor
  · exact (C6_unmatched_brace_error [lbrace, 'T', 'A', 'B']).1 (by decide)
  · have h := (C6_unmatched_brace_error ['x', lbrace, 'T']).2 ['x'] ['T']
      rfl (by decide) (by decide)
    rw [h]
    decide

theorem trigger_not_op_eq_lbrace {c : Char} (h1 : c ∈ TRIGGER_CHARS)
    (h2 : c ∉ OPERATOR_CHARS) : c = lbrace := by
  rcases (by simpa [TRIGGER_CHARS] using h1 :
      c = lbrace ∨ c = '+' ∨ c = '^' ∨ c = '%' ∨ c = '~' ∨ c = '@') with
    rfl | rfl | rfl | rfl | rfl | rfl
  · rfl
  all_goals exact absurd (by decide) h2

theorem trigger_ne_lbrace_op {c : Char} (h1 : c ∈ TRIGGER_CHARS)
    (h2 : c ≠ lbrace) : c ∈ OPERATOR_CHARS := by
  rcases (by simpa [TRIGGER_CHARS] using h1 :
      c = lbrace ∨ c = '+' ∨ c = '^' ∨ c = '%' ∨ c = '~' ∨ c = '@') with
    rfl | rfl | rfl | rfl | rfl | rfl
  · exact absurd rfl h2
  all_goals decide

theorem not_mem_pre {t r : List Char} {op : Nat}
    (h : (t, true) ∈ (if 0 < op then [(r.take op, false)] else ([] : List Token))) :
    False := by
  split at h
  · simp at h
  · simp at h

theorem concatTokens_pre (r : List Char) (op : Nat) :
    concatTokens (if 0 < op then [(r.take op, false)] else ([] : List Token)) =
      r.take op := by
  split
  · simp [concatTokens]
  · next h =>
    rw [Nat.eq_zero_of_not_pos h]
    simp [concatTokens]

theorem head?_take_succ (l : List Char) (m : Nat) :
    (l.take (m + 1)).head? = l.head? := by
  cases l <;> rfl

theorem tokenizeStep_special_head {recur : List Char → List Token × Bool}
    (hrec : ∀ r t, (t, true) ∈ (recur r).1 → t.head? ≠ some rbrace) :
    ∀ r t, (t, true) ∈ (tokenizeStep recur r).1 → t.head? ≠ some rbrace := by
  intro r t ht
  cases hfi : firstIdx (fun c => decide (c ∈ TRIGGER_CHARS)) r with
  | none =>
    rw [tokenizeStep_none hfi] at ht
    simp at ht
  | some op =>
    by_cases hop : r.getD op ' ' ∈ OPERATOR_CHARS
    · rw [tokenizeStep_op hfi hop] at ht
      rcases List.mem_append.mp ht with h1 | h2
      · exact absurd h1 (fun h => not_mem_pre h)
      · rcases List.mem_cons.mp h2 with h3 | h4
        · have hteq : t = [r.getD op ' '] := congrArg Prod.fst h3
          rw [hteq]
          intro hhd
          rw [List.head?_cons] at hhd
          have hc := Option.some.inj hhd
          rw [hc] at hop
          exact absurd hop (by decide)
        · exact hrec _ t h4
    · cases hfc : firstIdx (fun c => decide (c = rbrace)) r with
      | none =>
        rw [tokenizeStep_err hfi hop hfc] at ht
        exact absurd ht (fun h => not_mem_pre h)
      | some cl =>
        by_cases hbr : cl = op + 1 ∧ cl + 1 < r.length ∧ r.getD (cl + 1) ' ' = rbrace
        · rw [tokenizeStep_dbl hfi hop hfc hbr] at ht
          rcases List.mem_append.mp ht with h1 | h2
          · exact absurd h1 (fun h => not_mem_pre h)
          · rcases List.mem_cons.mp h2 with h3 | h4
            · have hteq : t = [lbrace, rbrace, rbrace] := congrArg Prod.fst h3
              rw [hteq]
              decide
            · exact hrec _ t h4
        · rw [tokenizeStep_slice hfi hop hfc hbr] at ht
          rcases List.mem_append.mp ht with h1 | h2
          · exact absurd h1 (fun h => not_mem_pre h)
          · rcases List.mem_cons.mp h2 with h3 | h4
            · have hteq : t = (r.drop op).take (cl + 1 - op) :=
                congrArg Prod.fst h3
              rw [hteq]
              cases hn : cl + 1 - op with
              | zero => simp
              | succ m =>
                rw [head?_take_succ, List.head?_drop]
                obtain ⟨copc, hcop, hpc, -⟩ := firstIdx_some_spec hfi
                rw [hcop]
                intro hsome
                have hceq := Option.some.inj hsome
                have hlbr : copc = lbrace := by
                  apply trigger_not_op_eq_lbrace (of_decide_eq_true hpc)
                  rw [List.getD_eq_getElem?_getD, hcop] at hop
                  exact hop
                rw [hlbr] at hceq
                exact absurd hceq (by decide : ¬ lbrace = rbrace)
            · exact hrec _ t h4

theorem tokenizeLoop_special_head :
    ∀ (fuel : Nat) (r t : List Char),
      (t, true) ∈ (tokenizeLoop fuel r).1 → t.head? ≠ some rbrace := by
  intro fuel
  induction fuel with
  | zero =>
    intro r t ht
    simp [tokenizeLoop] at ht
  | succ fuel ih =>
    intro r t ht
    cases r with
    | nil => simp [tokenizeLoop] at ht
    | cons a rs =>
      rw [tokenizeLoop_succ _ _ (List.cons_ne_nil a rs)] at ht
      exact tokenizeStep_special_head (fun r' => ih r') _ t ht

theorem tokenizeLoop_no_lbrace :
    ∀ (fuel : Nat) (r : List Char), r.length < fuel → lbrace ∉ r →
      concatTokens (tokenizeLoop fuel r).1 = r ∧
      (tokenizeLoop fuel r).2 = false ∧
      ∀ t b, (t, b) ∈ (tokenizeLoop fuel r).1 → b = true → rbrace ∉ t := by
  intro fuel
  induction fuel with
  | zero =>
    intro r h
    exact absurd h (Nat.not_lt_zero _)
  | succ fuel ih =>
    intro r hlen hlb
    cases r with
    | nil =>
      refine ⟨rfl, rfl, ?_⟩
      intro t b ht
      simp [tokenizeLoop] at ht
    | cons a rs =>
      rw [tokenizeLoop_succ _ _ (List.cons_ne_nil a rs)]
      cases hfi : firstIdx (fun c => decide (c ∈ TRIGGER_CHARS)) (a :: rs) with
      | none =>
        rw [tokenizeStep_none hfi]
        refine ⟨by simp [concatTokens], rfl, ?_⟩
        intro t b ht htrue
        rw [List.mem_singleton] at ht
        rw [htrue] at ht
        cases ht
      | some op =>
        obtain ⟨copc, hcop, hpc, -⟩ := firstIdx_some_spec hfi
        have hne : copc ≠ lbrace := by
          intro h
          rw [h] at hcop
          exact hlb (List.getElem?_mem hcop)
        have hgd : (a :: rs).getD op ' ' = copc := by
          rw [List.getD_eq_getElem?_getD, hcop]
          rfl
        have hop : (a :: rs).getD op ' ' ∈ OPERATOR_CHARS := by
          rw [hgd]
          exact trigger_ne_lbrace_op (of_decide_eq_true hpc) hne
        rw [tokenizeStep_op hfi hop]
        have hoplt : op < (a :: rs).length := (List.getElem?_eq_some.mp hcop).1
        have hdropC : (a :: rs).drop op = copc :: (a :: rs).drop (op + 1) := by
          rw [List.drop_eq_getElem_cons hoplt]
          have := List.getElem?_eq_getElem hoplt
          rw [this] at hcop
          rw [Option.some.inj hcop]
        have hlbdrop : lbrace ∉ (a :: rs).drop (op + 1) :=
          fun hm => hlb (List.mem_of_mem_drop hm)
        have hlendrop : ((a :: rs).drop (op + 1)).length < fuel := by
          rw [List.length_drop]
          exact Nat.lt_of_lt_of_le
            (Nat.sub_lt (Nat.succ_pos _) (Nat.succ_pos _))
            (Nat.lt_succ_iff.mp hlen)
        obtain ⟨ihc, ihe, ihs⟩ := ih _ hlendrop hlbdrop
        refine ⟨?_, ihe, ?_⟩
        · show concatTokens (_ ++ _) = _
          rw [concatTokens, List.map_append, List.flatten_append]
          rw [← concatTokens, ← concatTokens, concatTokens_pre]
          rw [concatTokens, List.map_cons, List.flatten_cons, ← concatTokens, ihc]
          rw [hgd, List.singleton_append, ← hdropC, List.take_append_drop]
        · intro t b ht htrue
          rcases List.mem_append.mp ht with h1 | h2
          · rw [htrue] at h1
            exact absurd h1 (fun h => not_mem_pre h)
          · rcases List.mem_cons.mp h2 with h3 | h4
            · have hteq : t = [(a :: rs).getD op ' '] := congrArg Prod.fst h3
              rw [hteq]
              intro hmem
              rw [List.mem_singleton] at hmem
              rw [← hmem] at hop
              exact absurd hop (by decide)
            · exact ihs t b h4 htrue

/-- C5: a bare right brace is never a trigger character.  (a) In every
input, no special token ever begins with a right brace (special tokens are
single operators, brace-opened spans, the literal-brace escape, or — in the
degenerate mis-slicing case — empty).  (b) In an input containing no left
brace at all, every right brace is ordinary literal text: tokenization
succeeds, the tokens concatenate back to the input, and no special token
contains a right brace. -/
theorem C5_bare_rbrace_literal (s : List Char) :
    (∀ t, (t, true) ∈ (tokenize_autotype s).1 → t.head? ≠ some rbrace) ∧
    (lbrace ∉ s →
      concatTokens (tokenize_autotype s).1 = s ∧
      (tokenize_autotype s).2 = false ∧
      ∀ t b, (t, b) ∈ (tokenize_autotype s).1 → b = true → rbrace ∉ t) := by
  constructor
  · intro t ht
    exact tokenizeLoop_special_head _ s t ht
  · intro h
    exact tokenizeLoop_no_lbrace _ s (Nat.lt_succ_self _) h

/-- C5 witness: the input `x\x7dy~z` (bare right brace, then an operator)
round-trips with no error, and its only special token is the operator `~`. -/
theorem C5_bare_rbrace_literal_witness :
    concatTokens (tokenize_autotype ['x', rbrace, 'y', '~', 'z']).1 =
      ['x', rbrace, 'y', '~', 'z'] ∧
    (tokenize_autotype ['x', rbrace, 'y', '~', 'z']).2 = false := by
  have h := (C5_bare_rbrace_literal ['x', rbrace, 'y', '~', 'z']).2 (by decide)
  exact ⟨h.1, h.2.1⟩

/-- C7: save-then-reopen invariant.  VIOLATED BY THE CODE: in the
manage-groups flow, `create_group` saves the handle and control returns to
the `manage_groups` loop, whose next iteration reads `kpo.groups` from the
same in-memory handle to rebuild its menu — no re-open happens until the
whole sub-loop finishes (and then only when its last result is truthy).
The trace below shows `save` (third event) followed by a `readGroups`
(fourth event) with no `reopen` in between, contradicting the `dmenu_run`
docstring "I had to reload the kpo object after every save". -/
theorem C7_save_reopen_violated :
    (dmenu_runner_manage_groups (KPO.mk [] [Group.mk "ab" "ab"]) scriptC7).2 =
      [DbEv.readGroups, DbEv.readGroups, DbEv.save, DbEv.readGroups,
        DbEv.save, DbEv.reopen] ∧
    reopened_before_read
      (dmenu_runner_manage_groups (KPO.mk [] [Group.mk "ab" "ab"]) scriptC7).2 =
      false := by
  decide

end Keepmenu
